import Mathlib

/-!
Verification development for the tidy3d-model repository: a shallow embedding of
the waveguide mode solver (src/tidy3d/plugins/mode/solver.py) and the
near-field-to-far-field projector (src/tidy3d/plugins/near2far/near2far.py),
together with theorems settling the specification claims about them.

Numeric modelling conventions: floating-point scalars are modelled as exact
numbers (a linear ordered field for grid and resampling arithmetic, the real and
complex numbers where square roots, trigonometric functions and complex
exponentials occur); numpy arrays are modelled as lists or as total functions
from indices.
-/

namespace Tidy3d

/-! ## Constants

The file constants.py of the repository is not included under src/; its values are listed
in the spec (section 6, Physical constants). -/

/-- Modelled from the spec: constants.py is not under src/; the spec gives the
speed of light in the internal units of the project as 299792458580946.8. -/
def C_0 {K : Type*} [LinearOrderedField K] : K := 2997924585809468 / 10

/-- Modelled from the spec: constants.py is not under src/; the spec gives the
perfect-electric-conductor sentinel permittivity as -1e11. -/
def pec_val : ℂ := -(10 ^ 11)

/-! ## pop_axis

The FieldMonitor class (components/monitor.py) is not under src/. The
collaborator contract of the spec (section 6) gives
pop_axis(vec3, axis) = (normal, (c1, c2)): the component at position axis is
plucked out of the length-3 tuple and the two remaining components are returned
in order. -/

/-- Modelled from the spec: FieldMonitor.pop_axis (components/monitor.py is not
under src/), per the collaborator contract of section 6. -/
def popAxis {α : Type*} (axis : Fin 3) (v : α × α × α) : α × (α × α) :=
  match axis with
  | ⟨0, _⟩ => (v.1, (v.2.1, v.2.2))
  | ⟨1, _⟩ => (v.2.1, (v.1, v.2.2))
  | ⟨2, _⟩ => (v.2.2, (v.1, v.2.1))

/-! ## Grid steps (solver.py lines 139-143)

dl_f = coords[1:] - coords[:-1] (primal steps) and
dl_b = hstack(dl_f[0], (dl_f[:-1] + dl_f[1:]) / 2) (dual steps). -/

section GridSteps

variable {K : Type*} [LinearOrderedField K]

/-- Primal grid steps: new_cs[1:] - new_cs[:-1] (solver.py line 140). -/
def dl_f (coords : List K) : List K :=
  (coords.zip coords.tail).map (fun p => p.2 - p.1)

/-- Dual grid steps: np.hstack((dl_f[0], (dl_f[:-1] + dl_f[1:]) / 2))
(solver.py lines 142-143).  For an empty step list (where numpy indexing would
fail) the result is empty. -/
def dl_b (coords : List K) : List K :=
  let df := dl_f coords
  let dtmp := (df.zip df.tail).map (fun p => (p.1 + p.2) / 2)
  match df with
  | [] => []
  | d :: _ => d :: dtmp

lemma dl_f_length (coords : List K) : (dl_f coords).length = coords.length - 1 := by
  simp [dl_f]

lemma get?_zip_tail {α : Type*} (l : List α) (k : ℕ) (x y : α)
    (hx : l.get? k = some x) (hy : l.get? (k + 1) = some y) :
    (l.zip l.tail).get? k = some (x, y) := by
  induction l generalizing k with
  | nil => simp at hx
  | cons a rest ih =>
    cases k with
    | zero =>
      cases rest with
      | nil => simp at hy
      | cons b rest' =>
        simp only [List.get?] at hx hy
        obtain rfl : a = x := by injection hx
        obtain rfl : b = y := by injection hy
        rfl
    | succ k' =>
      cases rest with
      | nil => simp at hx
      | cons b rest' =>
        simp only [List.get?] at hx hy
        simpa [List.zip] using ih k' hx hy

lemma dl_f_cons (c0 c1 : K) (rest : List K) :
    dl_f (c0 :: c1 :: rest) = (c1 - c0) :: dl_f (c1 :: rest) := by
  simp [dl_f, List.zip]

lemma dl_b_cons (c0 c1 : K) (rest : List K) :
    dl_b (c0 :: c1 :: rest) =
      (c1 - c0) ::
        ((dl_f (c0 :: c1 :: rest)).zip (dl_f (c0 :: c1 :: rest)).tail).map
          (fun p => (p.1 + p.2) / 2) := by
  simp only [dl_b]
  rw [dl_f_cons]

end GridSteps

/-- Claim C5: for a monotone-increasing coordinate array, the primal steps are
dl_f = coords[1:] - coords[:-1], the dual steps dl_b have the same length, the
interior dual steps are the averages (dl_f[k] + dl_f[k+1]) / 2, and in
particular the first dual step equals the first primal step exactly. -/
theorem claim_C5_dual_steps {K : Type*} [LinearOrderedField K]
    (coords : List K) (hmono : List.Chain' (· < ·) coords)
    (hlen : 2 ≤ coords.length) :
    (dl_b coords).head? = (dl_f coords).head? ∧
    (dl_b coords).length = (dl_f coords).length ∧
    (∀ k x y, (dl_f coords).get? k = some x → (dl_f coords).get? (k + 1) = some y →
      (dl_b coords).get? (k + 1) = some ((x + y) / 2)) := by
  match coords, hlen with
  | c0 :: c1 :: rest, _ =>
    refine ⟨?_, ?_, ?_⟩
    · rw [dl_b_cons, dl_f_cons]
      rfl
    · rw [dl_b_cons]
      simp [dl_f_cons, dl_f_length]
    · intro k x y hx hy
      have hzip := get?_zip_tail (dl_f (c0 :: c1 :: rest)) k x y hx hy
      rw [dl_b_cons]
      simp only [List.get?, List.get?_map, hzip, Option.map_some']

/-- Witness for claim C5 at the concrete coordinates [0, 1, 3] over the
rationals: the hypotheses hold and the first dual step equals the first primal
step. -/
theorem claim_C5_dual_steps_witness :
    List.Chain' (· < ·) ([0, 1, 3] : List ℚ) ∧ 2 ≤ ([0, 1, 3] : List ℚ).length ∧
    (dl_b ([0, 1, 3] : List ℚ)).head? = (dl_f ([0, 1, 3] : List ℚ)).head? :=
  ⟨by simp [List.chain'_cons], by decide,
    (claim_C5_dual_steps [0, 1, 3] (by simp [List.chain'_cons]) (by decide)).1⟩

/-! ## Surface currents (near2far.py, Near2Far._fields_to_currents, lines 287-330)

The FieldData dictionary is modelled as a partial map from structured component
keys (Ex..Hz, and the produced Jx..Mz) to array values; an array value is any
element of an additive commutative group, on which multiplication by the +-1
sign factors acts as an integer scalar. -/

/-- Keys of the field-data dictionary: a field kind (E, H, J or M) applied to a
cartesian component index 0, 1, 2 standing for x, y, z. -/
inductive FieldKey where
  | E (c : Fin 3)
  | H (c : Fin 3)
  | J (c : Fin 3)
  | M (c : Fin 3)
deriving DecidableEq

/-- A monitor surface normal direction, '+' or '-'. -/
inductive Direction where
  | plus
  | minus
deriving DecidableEq

/-- Sign factors of _fields_to_currents (lines 289-293): signs = (-1, +1),
negated once if the normal axis is odd, negated again if normal_dir is '-'. -/
def signsFor (axis : Fin 3) (dir : Direction) : ℤ × ℤ :=
  let s : ℤ × ℤ := (-1, 1)
  let s := if axis.val % 2 ≠ 0 then (-s.1, -s.2) else s
  if dir = Direction.minus then (-s.1, -s.2) else s

/-- A field-data dictionary: partial map from component keys to array values. -/
def DataDict (V : Type*) := FieldKey → Option V

/-- Store an optional value at a key of a data dictionary. -/
def dset {V : Type*} (m : DataDict V) (k : FieldKey) (v : Option V) : DataDict V :=
  fun q => if q = k then v else m q

/-- Near2Far._fields_to_currents (lines 287-330): pop the tangential H fields
into J entries and the tangential E fields into M entries, delete the normal
components, then multiply the stored values by the sign factors. -/
def fieldsToCurrents {V : Type*} [AddCommGroup V]
    (axis : Fin 3) (dir : Direction) (m : DataDict V) : DataDict V :=
  let wc := popAxis axis ((0 : Fin 3), (1 : Fin 3), (2 : Fin 3))
  let nrm := wc.1
  let c1 := wc.2.1
  let c2 := wc.2.2
  let signs := signsFor axis dir
  let v := m (.H c1)
  let m := dset (dset m (.H c1) none) (.J c2) v
  let v := m (.H c2)
  let m := dset (dset m (.H c2) none) (.J c1) v
  let m := dset m (.H nrm) none
  let v := m (.E c1)
  let m := dset (dset m (.E c1) none) (.M c2) v
  let v := m (.E c2)
  let m := dset (dset m (.E c2) none) (.M c1) v
  let m := dset m (.E nrm) none
  let m := dset m (.J c1) ((m (.J c1)).map (fun v => signs.1 • v))
  let m := dset m (.J c2) ((m (.J c2)).map (fun v => signs.2 • v))
  let m := dset m (.M c1) ((m (.M c1)).map (fun v => signs.2 • v))
  let m := dset m (.M c2) ((m (.M c2)).map (fun v => signs.1 • v))
  m

/-- Claim C2: for every planar surface with normal axis a and tangential
components (c1, c2), the produced surface currents are J_c2 = s[1]*H_c1,
J_c1 = s[0]*H_c2, M_c2 = s[0]*E_c1, M_c1 = s[1]*E_c2, where s starts as
(-1, +1), is negated once if a is odd and again if normal_dir is '-', and the
normal components of E and H are absent from the returned data. -/
theorem claim_C2_fields_to_currents {V : Type*} [AddCommGroup V]
    (axis : Fin 3) (dir : Direction) (m : DataDict V) :
    fieldsToCurrents axis dir m
        (.J (popAxis axis ((0 : Fin 3), (1 : Fin 3), (2 : Fin 3))).2.2) =
      (m (.H (popAxis axis ((0 : Fin 3), (1 : Fin 3), (2 : Fin 3))).2.1)).map
        (fun v => (signsFor axis dir).2 • v) ∧
    fieldsToCurrents axis dir m
        (.J (popAxis axis ((0 : Fin 3), (1 : Fin 3), (2 : Fin 3))).2.1) =
      (m (.H (popAxis axis ((0 : Fin 3), (1 : Fin 3), (2 : Fin 3))).2.2)).map
        (fun v => (signsFor axis dir).1 • v) ∧
    fieldsToCurrents axis dir m
        (.M (popAxis axis ((0 : Fin 3), (1 : Fin 3), (2 : Fin 3))).2.2) =
      (m (.E (popAxis axis ((0 : Fin 3), (1 : Fin 3), (2 : Fin 3))).2.1)).map
        (fun v => (signsFor axis dir).1 • v) ∧
    fieldsToCurrents axis dir m
        (.M (popAxis axis ((0 : Fin 3), (1 : Fin 3), (2 : Fin 3))).2.1) =
      (m (.E (popAxis axis ((0 : Fin 3), (1 : Fin 3), (2 : Fin 3))).2.2)).map
        (fun v => (signsFor axis dir).2 • v) ∧
    fieldsToCurrents axis dir m
        (.E (popAxis axis ((0 : Fin 3), (1 : Fin 3), (2 : Fin 3))).1) = none ∧
    fieldsToCurrents axis dir m
        (.H (popAxis axis ((0 : Fin 3), (1 : Fin 3), (2 : Fin 3))).1) = none := by
  fin_cases axis <;> cases dir <;>
    simp [fieldsToCurrents, dset, popAxis, signsFor]

/-! ## Permittivity input validation (solver.py lines 53-68)

The code does: if the input is an ndarray, tuple-unpack it as
eps_xx, eps_yy, eps_zz = eps_cross (iterating the first axis, which requires
the first dimension to equal 3 and yields its rows); otherwise, if it has
length 3, copy the three entries; otherwise raise.  Any exception in that block
is re-raised as the invalid-permittivity error.  Afterwards (outside the try
block) Nx, Ny = eps_xx.shape requires eps_xx to be two-dimensional, and the
coords sizes are checked against Nx + 1 and Ny + 1.  Only the array shapes
decide which of these errors fires, so arrays are modelled by their shapes. -/

/-- A numpy array modelled by its shape. -/
structure NDArrayS where
  shape : List ℕ
deriving DecidableEq

/-- The eps_cross argument: either a single ndarray or a tuple/list of
ndarrays. -/
inductive EpsCrossInput where
  | array (a : NDArrayS)
  | tuple (l : List NDArrayS)

/-- Errors raised while reading eps_cross and coords in compute_modes. -/
inductive ModeSolverError where
  | invalidPermittivity
  | shapeUnpack
  | coordsMismatch
deriving DecidableEq

/-- The try block of compute_modes (lines 53-62): tuple-unpack an ndarray
input along its first axis (three rows required), or accept a length-3 tuple;
everything else (including the failed unpack) surfaces the
invalid-permittivity error. -/
def unpackEpsCross : EpsCrossInput → Except ModeSolverError (NDArrayS × NDArrayS × NDArrayS)
  | .array a =>
    match a.shape with
    | [] => .error .invalidPermittivity
    | d :: rest => if d = 3 then .ok (⟨rest⟩, ⟨rest⟩, ⟨rest⟩) else .error .invalidPermittivity
  | .tuple l =>
    match l with
    | [e1, e2, e3] => .ok (e1, e2, e3)
    | _ => .error .invalidPermittivity

/-- compute_modes input validation (lines 53-68): the try-block unpack
followed by Nx, Ny = eps_xx.shape and the coords size check. -/
def checkEpsAndCoords (e : EpsCrossInput) (c0len c1len : ℕ) :
    Except ModeSolverError (ℕ × ℕ) :=
  match unpackEpsCross e with
  | .error err => .error err
  | .ok (exx, _, _) =>
    match exx.shape with
    | [nx, ny] =>
      if c0len ≠ nx + 1 ∨ c1len ≠ ny + 1 then .error .coordsMismatch
      else .ok (nx, ny)
    | _ => .error .shapeUnpack

/-- Claim C8, evidence of the code bug: a single 2D array of shape (2, 2) with
consistent coords (sizes 3 and 3) is rejected with the invalid-permittivity
error, contrary to the claim and to the docstring of the function; a single 2D
array of shape (3, 2) escapes the invalid-permittivity error only to fail at
the eps_xx.shape unpack because its rows were misread as the three
permittivity components; a 3-tuple of matching 2D arrays is accepted. -/
theorem claim_C8_single_2d_array_rejected :
    checkEpsAndCoords (.array ⟨[2, 2]⟩) 3 3 = .error .invalidPermittivity ∧
    checkEpsAndCoords (.array ⟨[3, 2]⟩) 4 3 = .error .shapeUnpack ∧
    checkEpsAndCoords (.tuple [⟨[2, 2]⟩, ⟨[2, 2]⟩, ⟨[2, 2]⟩]) 3 3 = .ok (2, 2) :=
  ⟨rfl, rfl, rfl⟩

/-! ## Diagonal-solver eigenvalue post-processing (solver.py lines 260-274)

The eigensolver returns eigenvalues vals with vals = -(neff + i*keff)^2; the
code sets vre = -Re(vals), vim = -Im(vals), raises if no eigenpairs were
found, sorts by descending vre, and recovers
neff = sqrt(vre/2 + sqrt(vre^2 + vim^2)/2).  Eigenvalues are modelled as
(real, imaginary) pairs. -/

/-- The effective-index formula of solver_diagonal line 273 applied to one
(vre, vim) pair. -/
noncomputable def neffOfVal (p : ℝ × ℝ) : ℝ :=
  Real.sqrt (p.1 / 2 + Real.sqrt (p.1 ^ 2 + p.2 ^ 2) / 2)

/-- Lines 264-270 of solver_diagonal: negate the eigenvalues into (vre, vim)
pairs and sort by descending vre (np.argsort(vre)[::-1] applied to all
arrays). -/
noncomputable def diagSorted (vals : List (ℝ × ℝ)) : List (ℝ × ℝ) :=
  List.insertionSort (fun p q => q.1 ≤ p.1) (vals.map (fun v => (-v.1, -v.2)))

/-- The list of real effective indices produced by solver_diagonal from the
eigensolver output (lines 264-273). -/
noncomputable def diagNeff (vals : List (ℝ × ℝ)) : List ℝ :=
  (diagSorted vals).map neffOfVal

/-- Lines 364-375 of solver_tensorial: there the eigenvalues are
1j*(neff + 1j*keff), so neff = Im(vals) and keff = -Re(vals); the
(neff, keff) pairs are sorted by descending neff
(np.argsort(neff)[::-1] applied to all arrays). -/
noncomputable def tensorialSorted (vals : List (ℝ × ℝ)) : List (ℝ × ℝ) :=
  List.insertionSort (fun p q => q.1 ≤ p.1) (vals.map (fun v => (v.2, -v.1)))

/-- The list of real effective indices produced by solver_tensorial from the
eigensolver output (lines 369-375). -/
noncomputable def tensorialNeff (vals : List (ℝ × ℝ)) : List ℝ :=
  (tensorialSorted vals).map (fun p => p.1)

/-- The message of the RuntimeError raised when the eigensolver returns zero
eigenpairs (solver.py lines 262-263 and 366-367). -/
def noEigenmodesMessage : String := "Could not find any eigenmodes for this waveguide"

/-- The message surfaced for a given shift-invert target: the source raises a
fixed string that does not depend on the guess it received. -/
def noEigenmodesMessageFor (_neffGuess : ℝ) : String := noEigenmodesMessage

/-- solver_diagonal viewed as a fallible map from the eigensolver output to
the effective indices: error on zero eigenpairs, post-processing otherwise. -/
noncomputable def solverDiagonalNeff (vals : List (ℝ × ℝ)) : Except String (List ℝ) :=
  match vals with
  | [] => .error noEigenmodesMessage
  | v :: vs => .ok (diagNeff (v :: vs))

lemma neffOfVal_mono_real {a b : ℝ} (hab : b ≤ a) :
    neffOfVal (b, 0) ≤ neffOfVal (a, 0) := by
  unfold neffOfVal
  apply Real.sqrt_le_sqrt
  have ha : Real.sqrt (a ^ 2 + (0 : ℝ) ^ 2) = |a| := by
    rw [show a ^ 2 + (0 : ℝ) ^ 2 = a ^ 2 by ring, Real.sqrt_sq_eq_abs]
  have hb : Real.sqrt (b ^ 2 + (0 : ℝ) ^ 2) = |b| := by
    rw [show b ^ 2 + (0 : ℝ) ^ 2 = b ^ 2 by ring, Real.sqrt_sq_eq_abs]
  simp only [ha, hb]
  rcases abs_cases a with ⟨ha1, ha2⟩ | ⟨ha1, ha2⟩ <;>
    rcases abs_cases b with ⟨hb1, hb2⟩ | ⟨hb1, hb2⟩ <;>
      rw [ha1, hb1] <;> linarith

lemma neffOfVal_mono {p q : ℝ × ℝ} (hp : p.2 = 0) (hq : q.2 = 0)
    (h : q.1 ≤ p.1) : neffOfVal q ≤ neffOfVal p := by
  obtain ⟨p1, p2⟩ := p
  obtain ⟨q1, q2⟩ := q
  simp only at hp hq h
  subst hp
  subst hq
  exact neffOfVal_mono_real h

lemma chain_neff_map :
    ∀ l : List (ℝ × ℝ), List.Chain' (fun p q : ℝ × ℝ => q.1 ≤ p.1) l →
      (∀ p ∈ l, p.2 = 0) → List.Chain' (· ≥ ·) (l.map neffOfVal) := by
  intro l
  induction l with
  | nil => intro _ _; simp
  | cons p t ih =>
    intro hch hm
    cases t with
    | nil => simp
    | cons q t' =>
      rw [List.map_cons, List.map_cons, List.chain'_cons]
      rw [List.chain'_cons] at hch
      constructor
      · exact neffOfVal_mono (hm p (by simp)) (hm q (by simp)) hch.1
      · have := ih hch.2 (fun x hx => hm x (by simp [hx]))
        rwa [List.map_cons] at this

/-- Claim C6, counterexample: the diagonal solver sorts by descending
vre = -Re(lambda), not by the resulting effective index.  For the eigensolver
output [-7/2, -3 - 4i] the sorted vre order is (7/2, 3), yet the effective
indices are (sqrt(7/2), 2), which is strictly increasing, so the real parts of
the returned effective indices are not monotonically non-increasing. -/
theorem claim_C6_counterexample :
    ¬ List.Chain' (· ≥ ·) (diagNeff [(-(7 / 2 : ℝ), 0), (-3, -4)]) := by
  have hcond : ((3 : ℝ), (4 : ℝ)).1 ≤ ((7 / 2 : ℝ), -(0 : ℝ)).1 := by norm_num
  have hlist : diagNeff [(-(7 / 2 : ℝ), 0), (-3, -4)] =
      [neffOfVal (7 / 2, -0), neffOfVal (3, 4)] := by
    simp only [diagNeff, diagSorted, List.map_cons, List.map_nil, neg_neg,
      List.insertionSort, List.orderedInsert, if_pos hcond]
  rw [hlist]
  have e1 : neffOfVal ((7 : ℝ) / 2, -0) = Real.sqrt (7 / 2) := by
    unfold neffOfVal
    rw [show ((7 : ℝ) / 2) ^ 2 + (-0 : ℝ) ^ 2 = (7 / 2) ^ 2 by ring,
      Real.sqrt_sq (by norm_num : (0 : ℝ) ≤ 7 / 2),
      show (7 : ℝ) / 2 / 2 + 7 / 2 / 2 = 7 / 2 by ring]
  have e2 : neffOfVal ((3 : ℝ), 4) = 2 := by
    unfold neffOfVal
    rw [show (3 : ℝ) ^ 2 + (4 : ℝ) ^ 2 = 5 ^ 2 by norm_num,
      Real.sqrt_sq (by norm_num : (0 : ℝ) ≤ 5),
      show (3 : ℝ) / 2 + 5 / 2 = 2 ^ 2 by norm_num,
      Real.sqrt_sq (by norm_num : (0 : ℝ) ≤ 2)]
  rw [e1, e2]
  simp only [List.chain'_cons, List.chain'_singleton, and_true, ge_iff_le, not_le]
  exact (Real.sqrt_lt' (by norm_num : (0 : ℝ) < 2)).mpr (by norm_num)

lemma chain_sort_by_fst (l : List (ℝ × ℝ)) :
    List.Chain' (fun p q : ℝ × ℝ => q.1 ≤ p.1)
      (List.insertionSort (fun p q : ℝ × ℝ => q.1 ≤ p.1) l) := by
  haveI : IsTotal (ℝ × ℝ) (fun p q : ℝ × ℝ => q.1 ≤ p.1) :=
    ⟨fun a b => le_total b.1 a.1⟩
  haveI : IsTrans (ℝ × ℝ) (fun p q : ℝ × ℝ => q.1 ≤ p.1) :=
    ⟨fun _ _ _ hab hbc => le_trans hbc hab⟩
  exact (List.sorted_insertionSort _ _).chain'

/-- Claim C6, amended: after sort_by = largest_neff, the tensorial path sorts
neff = Im(lambda) itself, so the real parts of the returned effective indices
are monotonically non-increasing there unconditionally; the diagonal path
sorts by vre = -Re(lambda), and the real parts of its returned effective
indices are monotonically non-increasing whenever the eigensolver output
consists of purely real eigenvalues (zero imaginary parts, as in a lossless
diagonal problem) — with genuinely complex eigenvalues in the diagonal path
the ordering can fail (see the counterexample). -/
theorem claim_C6_amended :
    (∀ vals : List (ℝ × ℝ), (∀ p ∈ vals, p.2 = 0) →
      List.Chain' (· ≥ ·) (diagNeff vals)) ∧
    (∀ vals : List (ℝ × ℝ), List.Chain' (· ≥ ·) (tensorialNeff vals)) := by
  constructor
  · intro vals h
    have hchain : List.Chain' (fun p q : ℝ × ℝ => q.1 ≤ p.1) (diagSorted vals) := by
      rw [diagSorted]
      exact chain_sort_by_fst _
    have hmem : ∀ p ∈ diagSorted vals, p.2 = 0 := by
      intro p hp
      rw [diagSorted, List.mem_insertionSort] at hp
      obtain ⟨v, hv, rfl⟩ := List.mem_map.mp hp
      simp [h v hv]
    exact chain_neff_map _ hchain hmem
  · intro vals
    have hchain : List.Chain' (fun p q : ℝ × ℝ => q.1 ≤ p.1) (tensorialSorted vals) := by
      rw [tensorialSorted]
      exact chain_sort_by_fst _
    exact (List.chain'_map _).mpr (hchain.imp fun _ _ hh => hh)

/-- Witness for the amended claim C6: the diagonal part at the concrete
lossless eigensolver output [-4, -1] and the tensorial part at the concrete
output [-3 + 2i, i]. -/
theorem claim_C6_amended_witness :
    (∀ p ∈ ([(-4, 0), (-1, 0)] : List (ℝ × ℝ)), p.2 = 0) ∧
    List.Chain' (· ≥ ·) (diagNeff [(-4, 0), (-1, 0)]) ∧
    List.Chain' (· ≥ ·) (tensorialNeff [(-3, 2), (0, 1)]) := by
  have hm : ∀ p ∈ ([(-4, 0), (-1, 0)] : List (ℝ × ℝ)), p.2 = 0 := by
    intro p hp
    rcases List.mem_cons.mp hp with hc | hp'
    · rw [hc]
    · rcases List.mem_cons.mp hp' with hc | hc
      · rw [hc]
      · simp at hc
  exact ⟨hm, claim_C6_amended.1 _ hm, claim_C6_amended.2 [(-3, 2), (0, 1)]⟩

/-- Claim C9, counterexample: the message raised when the eigensolver returns
zero eigenpairs is the same fixed string for any two distinct shift-invert
targets and contains no digit at all, so it cannot contain the target_neff
value. -/
theorem claim_C9_counterexample :
    noEigenmodesMessageFor (7 / 2) = noEigenmodesMessageFor 9 ∧
    ((7 / 2 : ℝ) ≠ 9) ∧
    ((noEigenmodesMessageFor (7 / 2)).data.all fun c => !c.isDigit) = true :=
  ⟨rfl, by norm_num, by decide⟩

/-- Claim C9, amended: when the eigensolver returns zero eigenpairs the
diagonal solver fails with the no-eigenmodes error, whose message is the fixed
string that does not mention the target; non-empty outputs are processed
normally. -/
theorem claim_C9_amended :
    solverDiagonalNeff [] =
      Except.error ("Could not find any eigenmodes for this waveguide") ∧
    (∀ (v : ℝ × ℝ) (vs : List (ℝ × ℝ)),
      solverDiagonalNeff (v :: vs) = Except.ok (diagNeff (v :: vs))) :=
  ⟨rfl, fun _ _ => rfl⟩

/-! ## k-vector transform and shift-invert target (solver.py lines 103-105,
155-166 and 185) -/

/-- The k-vector transform factor kp_to_k (solver.py lines 103-105):
kxy = cos(theta)^2, kz = cos(theta)*sin(theta),
kp_to_k = [kxy*sin(phi), kxy*cos(phi), kz]. -/
noncomputable def kp_to_k (angleTheta anglePhi : ℝ) : Fin 3 → ℝ :=
  let kxy := Real.cos angleTheta ^ 2
  let kz := Real.cos angleTheta * Real.sin angleTheta
  ![kxy * Real.sin anglePhi, kxy * Real.cos anglePhi, kz]

/-- np.linalg.norm(kp_to_k): the Euclidean norm of the k-vector transform
factor. -/
noncomputable def normKpToK (angleTheta anglePhi : ℝ) : ℝ :=
  Real.sqrt (kp_to_k angleTheta anglePhi 0 ^ 2 + kp_to_k angleTheta anglePhi 1 ^ 2 +
    kp_to_k angleTheta anglePhi 2 ^ 2)

/-- The default target guess of compute_modes (lines 156-160) when
mode_spec.target_neff is None: flatten the input permittivity, keep the cells
whose absolute value is strictly below the absolute PEC sentinel, and take the
square root of the maximum absolute value.  np.max of the filtered absolute
values is modelled as a fold seeded with 0; absolute values are nonnegative,
so this agrees with np.max whenever the filtered list is non-empty (np.max
raises on an empty one). -/
noncomputable def defaultTargetNeff (epsCells : List ℂ) : ℝ :=
  Real.sqrt
    (((epsCells.filter fun z => decide (Complex.abs z < Complex.abs pec_val)).map
        Complex.abs).foldr max 0)

/-- Lines 156-163 of compute_modes: the shift-invert target handed to
solver_em is the target (the mode_spec value when given, the default guess
otherwise) divided by the norm of kp_to_k. -/
noncomputable def shiftInvertTarget (targetNeffSpec : Option ℝ) (epsCells : List ℂ)
    (angleTheta anglePhi : ℝ) : ℝ :=
  (match targetNeffSpec with
   | none => defaultTargetNeff epsCells
   | some t => t) / normKpToK angleTheta anglePhi

/-- Lines 166 and 185 of compute_modes viewed through the effective indices:
the inner solver is called at the shift-invert target and each returned
effective index is multiplied by the norm of kp_to_k. -/
noncomputable def computeModesNeffList (solver : ℝ → List ℝ)
    (targetNeffSpec : Option ℝ) (epsCells : List ℂ) (angleTheta anglePhi : ℝ) :
    List ℝ :=
  (solver (shiftInvertTarget targetNeffSpec epsCells angleTheta anglePhi)).map
    (fun n => n * normKpToK angleTheta anglePhi)

/-- Claim C3: compute_modes forms
kp_to_k = (cos^2(theta)*sin(phi), cos^2(theta)*cos(phi), cos(theta)*sin(theta)),
passes target_neff / norm(kp_to_k) as the shift-invert target to the
eigensolver, and multiplies the effective index returned by the inner solver
by norm(kp_to_k) before returning it. -/
theorem claim_C3_k_vector_transform (angleTheta anglePhi target : ℝ)
    (epsCells : List ℂ) (solver : ℝ → List ℝ) :
    kp_to_k angleTheta anglePhi 0 = Real.cos angleTheta ^ 2 * Real.sin anglePhi ∧
    kp_to_k angleTheta anglePhi 1 = Real.cos angleTheta ^ 2 * Real.cos anglePhi ∧
    kp_to_k angleTheta anglePhi 2 = Real.cos angleTheta * Real.sin angleTheta ∧
    shiftInvertTarget (some target) epsCells angleTheta anglePhi =
      target / normKpToK angleTheta anglePhi ∧
    computeModesNeffList solver (some target) epsCells angleTheta anglePhi =
      (solver (target / normKpToK angleTheta anglePhi)).map
        (fun n => n * normKpToK angleTheta anglePhi) :=
  ⟨rfl, rfl, rfl, rfl, rfl⟩

/-- Claim C10: with mode_spec.target_neff = None the shift-invert target
before the norm division is the default guess, the square root of the maximum
absolute permittivity over cells strictly below the PEC sentinel in absolute
value; inserting a PEC sentinel cell anywhere in the permittivity never
changes the default guess. -/
theorem claim_C10_default_target :
    (∀ (epsCells : List ℂ) (angleTheta anglePhi : ℝ),
      shiftInvertTarget none epsCells angleTheta anglePhi =
        defaultTargetNeff epsCells / normKpToK angleTheta anglePhi) ∧
    (∀ l1 l2 : List ℂ,
      defaultTargetNeff (l1 ++ pec_val :: l2) = defaultTargetNeff (l1 ++ l2)) := by
  refine ⟨fun _ _ _ => rfl, fun l1 l2 => ?_⟩
  unfold defaultTargetNeff
  have hpec : (decide (Complex.abs pec_val < Complex.abs pec_val)) = false := by
    simp
  simp [List.filter_append, List.filter_cons, hpec]

/-! ## PEC boundary imposition (solver.py lines 117-137)

eps_tensor has shape (3, 3, N) with N = Nx*Ny and C-order raveling
n = i*Ny + j, so eps_tensor[.,.,:Ny] is the i = 0 (x-min) row and
eps_tensor[.,.,::Ny] the j = 0 (y-min) row.  The three diagonal entries are
modelled as functions from the flat index. -/

/-- Result of the boundary-imposition step: the updated diagonal permittivity
entries and the dmin_pmc flags handed to the derivative-matrix builder (true
means the backward derivative will be modified for PMC). -/
structure EpsBCResult where
  e00 : ℕ → ℂ
  e11 : ℕ → ℂ
  e22 : ℕ → ℂ
  dminPmc : Bool × Bool

/-- solver.py lines 121-137: unless symmetry[0] == 1, set eps_yy and eps_zz to
the PEC sentinel on the first Ny flat indices (the x-min row); otherwise flag
the backward x derivative for PMC.  Then, only when Ny > 1: unless
symmetry[1] == 1, set eps_xx and eps_zz to the PEC sentinel on the flat
indices divisible by Ny (the y-min row); otherwise flag the backward y
derivative for PMC. -/
def imposeBoundaryConditions (Ny : ℕ) (symmetry : ℤ × ℤ)
    (e00 e11 e22 : ℕ → ℂ) : EpsBCResult :=
  let xPart : (ℕ → ℂ) × (ℕ → ℂ) × Bool :=
    if symmetry.1 ≠ 1 then
      (fun n => if n < Ny then pec_val else e11 n,
       fun n => if n < Ny then pec_val else e22 n,
       false)
    else (e11, e22, true)
  let e11x := xPart.1
  let e22x := xPart.2.1
  let pmc0 := xPart.2.2
  if 1 < Ny then
    if symmetry.2 ≠ 1 then
      { e00 := fun n => if n % Ny = 0 then pec_val else e00 n
        e11 := e11x
        e22 := fun n => if n % Ny = 0 then pec_val else e22x n
        dminPmc := (pmc0, false) }
    else { e00 := e00, e11 := e11x, e22 := e22x, dminPmc := (pmc0, true) }
  else { e00 := e00, e11 := e11x, e22 := e22x, dminPmc := (pmc0, false) }

/-- Claim C4, counterexample: with Ny = 1 (one cell along y, as in the
slab-waveguide scenario of the spec itself) and symmetry = (0, 0), the y-part of the boundary
imposition is skipped entirely because of the Ny > 1 guard, so eps_xx at the
y-min cell n = 0 keeps its original value 1 instead of becoming the PEC
sentinel demanded by the claim. -/
theorem claim_C4_counterexample :
    (imposeBoundaryConditions 1 (0, 0) (fun _ => 1) (fun _ => 1) (fun _ => 1)).e00 0 = 1 ∧
    (0 : ℕ) % 1 = 0 ∧
    (1 : ℂ) ≠ pec_val := by
  refine ⟨?_, rfl, ?_⟩
  · simp [imposeBoundaryConditions]
  · intro h
    rw [pec_val] at h
    norm_num at h

/-- Claim C4, amended: before assembly, if symmetry[0] is not 1 then eps_yy
and eps_zz are set to the PEC sentinel on the whole x-min row and the backward
x derivative is not flagged for PMC, while if symmetry[0] is 1 the x-part
leaves eps_yy untouched and flags the backward x derivative for PMC; the same
holds for the y-min boundary (eps_xx and eps_zz, flat indices divisible by Ny)
provided Ny is greater than 1 — when Ny equals 1 the whole y-part is skipped:
eps_xx is untouched and the backward y derivative is never flagged. -/
theorem claim_C4_amended (Ny : ℕ) (symmetry : ℤ × ℤ) (e00 e11 e22 : ℕ → ℂ) :
    (symmetry.1 ≠ 1 →
      (∀ n < Ny,
        (imposeBoundaryConditions Ny symmetry e00 e11 e22).e11 n = pec_val ∧
        (imposeBoundaryConditions Ny symmetry e00 e11 e22).e22 n = pec_val) ∧
      (imposeBoundaryConditions Ny symmetry e00 e11 e22).dminPmc.1 = false) ∧
    (symmetry.1 = 1 →
      (imposeBoundaryConditions Ny symmetry e00 e11 e22).e11 = e11 ∧
      (imposeBoundaryConditions Ny symmetry e00 e11 e22).dminPmc.1 = true) ∧
    (1 < Ny → symmetry.2 ≠ 1 →
      (∀ n, n % Ny = 0 →
        (imposeBoundaryConditions Ny symmetry e00 e11 e22).e00 n = pec_val ∧
        (imposeBoundaryConditions Ny symmetry e00 e11 e22).e22 n = pec_val) ∧
      (imposeBoundaryConditions Ny symmetry e00 e11 e22).dminPmc.2 = false) ∧
    (1 < Ny → symmetry.2 = 1 →
      (imposeBoundaryConditions Ny symmetry e00 e11 e22).e00 = e00 ∧
      (imposeBoundaryConditions Ny symmetry e00 e11 e22).dminPmc.2 = true) ∧
    (¬ 1 < Ny →
      (imposeBoundaryConditions Ny symmetry e00 e11 e22).e00 = e00 ∧
      (imposeBoundaryConditions Ny symmetry e00 e11 e22).dminPmc.2 = false) := by
  refine ⟨fun hx => ⟨fun n hn => ?_, ?_⟩, fun hx => ?_,
    fun hy hys => ⟨fun n hn => ?_, ?_⟩, fun hy hys => ?_, fun hy => ?_⟩
  · by_cases h2 : 1 < Ny <;> by_cases h3 : symmetry.2 = 1 <;>
      simp [imposeBoundaryConditions, hx, h2, h3, hn]
  · by_cases h2 : 1 < Ny <;> by_cases h3 : symmetry.2 = 1 <;>
      simp [imposeBoundaryConditions, hx, h2, h3]
  · by_cases h2 : 1 < Ny <;> by_cases h3 : symmetry.2 = 1 <;>
      simp [imposeBoundaryConditions, hx, h2, h3]
  · by_cases h1 : symmetry.1 = 1 <;>
      simp [imposeBoundaryConditions, h1, hy, hys, hn]
  · by_cases h1 : symmetry.1 = 1 <;>
      simp [imposeBoundaryConditions, h1, hy, hys]
  · by_cases h1 : symmetry.1 = 1 <;>
      simp [imposeBoundaryConditions, h1, hy, hys]
  · by_cases h1 : symmetry.1 = 1 <;> by_cases h3 : symmetry.2 = 1 <;>
      simp [imposeBoundaryConditions, h1, h3, hy]

/-- Witness for the amended claim C4 at Ny = 2, symmetry = (0, 0) and unit
permittivity: both PEC assignments fire at the corner cell. -/
theorem claim_C4_amended_witness :
    ((0 : ℤ), (0 : ℤ)).1 ≠ 1 ∧
    (imposeBoundaryConditions 2 (0, 0) (fun _ => 1) (fun _ => 1) (fun _ => 1)).e11 0 = pec_val ∧
    (imposeBoundaryConditions 2 (0, 0) (fun _ => 1) (fun _ => 1) (fun _ => 1)).e00 0 = pec_val := by
  have h := claim_C4_amended 2 ((0 : ℤ), (0 : ℤ)) (fun _ => 1) (fun _ => 1) (fun _ => 1)
  exact ⟨by decide, ((h.1 (by decide)).1 0 (by decide)).1,
    ((h.2.2.1 (by decide) (by decide)).1 0 (by decide)).1⟩

/-! ## Surface-current resampling (near2far.py,
Near2Far._resample_surface_currents, lines 368-403) -/

section Resampler

variable {K : Type*} [LinearOrderedField K]

/-- np.linspace(start, stop, num) with its default endpoint=True:
num equally spaced samples from start to stop. -/
def linspace (start stop : K) (num : ℕ) : List K :=
  match num with
  | 0 => []
  | 1 => [start]
  | n + 2 =>
    (List.range (n + 2)).map
      (fun (k : ℕ) => start + (stop - start) * (k : K) / ((n : K) + 1))

/-- python max over the non-empty list f0 :: fs. -/
def listMax (f0 : K) (fs : List K) : K := fs.foldl max f0

lemma listMax_mem (f0 : K) (fs : List K) : listMax f0 fs ∈ f0 :: fs := by
  induction fs generalizing f0 with
  | nil => simp [listMax]
  | cons a fs ih =>
    have h := ih (max f0 a)
    rcases List.mem_cons.mp h with hh | hh
    · rcases max_choice f0 a with hc | hc <;> rw [listMax, List.foldl_cons]
      · rw [show (fs.foldl max (max f0 a)) = listMax (max f0 a) fs from rfl, hh, hc]
        exact List.mem_cons_self _ _
      · rw [show (fs.foldl max (max f0 a)) = listMax (max f0 a) fs from rfl, hh, hc]
        exact List.mem_cons_of_mem _ (List.mem_cons_self _ _)
    · rw [listMax, List.foldl_cons]
      exact List.mem_cons_of_mem _ (List.mem_cons_of_mem _ hh)

lemma le_listMax (f0 : K) (fs : List K) : ∀ x ∈ f0 :: fs, x ≤ listMax f0 fs := by
  induction fs generalizing f0 with
  | nil =>
    intro x hx
    rcases List.mem_cons.mp hx with h | h
    · rw [h]; exact le_refl _
    · simp at h
  | cons a fs ih =>
    intro x hx
    have hstep : listMax f0 (a :: fs) = listMax (max f0 a) fs := rfl
    rcases List.mem_cons.mp hx with h | h
    · rw [h, hstep]
      exact le_trans (le_max_left f0 a) (ih (max f0 a) _ (List.mem_cons_self _ _))
    · rcases List.mem_cons.mp h with h' | h'
      · rw [h', hstep]
        exact le_trans (le_max_right f0 a) (ih (max f0 a) _ (List.mem_cons_self _ _))
      · rw [hstep]
        exact ih (max f0 a) x (List.mem_cons_of_mem _ h')

variable [FloorRing K]

/-- The per-axis colocation points of _resample_surface_currents
(lines 380-400).  With resample False they are the Yee cell centers exposed by
sim_data.at_centers; otherwise the bounds are clamped to the simulation, the
wavelength uses the highest monitor frequency and the real part of the
refractive index of the medium there, the count is int(np.ceil(...)) (taken as 0
when the rounded value is negative, where numpy would reject the count), and
the points are a linspace. -/
def colocationPointsAxis (resample : Bool) (atCenters : List K)
    (monitorCenter monitorSize simCenter simSize : K)
    (ptsPerWavelength : ℕ) (f0 : K) (fs : List K) (nOf : K → K) : List K :=
  if resample = false then atCenters
  else
    let frequency := listMax f0 fs
    let wavelength := C_0 / frequency / nOf frequency
    let start := max (monitorCenter - monitorSize / 2) (simCenter - simSize / 2)
    let stop := min (monitorCenter + monitorSize / 2) (simCenter + simSize / 2)
    let size := stop - start
    let numPts := (⌈(ptsPerWavelength : K) * size / wavelength⌉).toNat
    linspace start stop numPts

end Resampler

/-- Claim C7: with resample the per-axis colocation points are
linspace(start, stop, n) with start = max(monitor_min, sim_min),
stop = min(monitor_max, sim_max) and
n = ceil(pts_per_wavelength * (stop - start) / wavelength), the wavelength
being C_0 / f_max / n_real(f_max) at the highest monitor frequency (the fold
below is that maximum: it belongs to the frequency list and dominates it);
without resample the points are exactly the at_centers Yee cell centers. -/
theorem claim_C7_resample_colocation {K : Type*} [LinearOrderedField K] [FloorRing K]
    (atCenters : List K) (mC mS sC sS : K) (ppw : ℕ) (f0 : K) (fs : List K)
    (nOf : K → K) :
    colocationPointsAxis false atCenters mC mS sC sS ppw f0 fs nOf = atCenters ∧
    (listMax f0 fs ∈ f0 :: fs ∧ ∀ x ∈ f0 :: fs, x ≤ listMax f0 fs) ∧
    colocationPointsAxis true atCenters mC mS sC sS ppw f0 fs nOf =
      linspace (max (mC - mS / 2) (sC - sS / 2)) (min (mC + mS / 2) (sC + sS / 2))
        (Int.toNat
          ⌈(ppw : K) * (min (mC + mS / 2) (sC + sS / 2) - max (mC - mS / 2) (sC - sS / 2)) /
            (C_0 / listMax f0 fs / nOf (listMax f0 fs))⌉) :=
  ⟨rfl, ⟨listMax_mem f0 fs, le_listMax f0 fs⟩, rfl⟩

/-- Witness for claim C7 over the rationals with a single monitor frequency:
the resample-off branch returns the given centers and the frequency bound is
realized at that frequency. -/
theorem claim_C7_resample_colocation_witness :
    colocationPointsAxis false [1, 2] (0 : ℚ) 2 0 4 10 3 [] (fun _ => 1) = [1, 2] ∧
    (3 : ℚ) ≤ listMax (3 : ℚ) [] := by
  have h := claim_C7_resample_colocation ([1, 2] : List ℚ) 0 2 0 4 10 3 [] (fun _ => 1)
  exact ⟨h.1, h.2.1.2 3 (List.mem_cons_self _ _)⟩

/-! ## Radiation vectors (near2far.py, Near2Far._radiation_vectors_for_surface
lines 406-522 and Near2Far.radiation_vectors lines 524-563)

Colocated surface currents are modelled per surface as functions of the
frequency value and the two tangential sample indices; the coordinate arrays
of the currents dataset are lists per axis (the normal axis carrying the
single colocated monitor-center coordinate, whose one-element phase array acts
as a scalar factor in the numpy broadcast). -/

/-- np.trapz(y, x): trapezoidal integration of the samples y against the
sample points x. -/
noncomputable def trapz (y : List ℂ) (x : List ℝ) : ℂ :=
  ((x.zip x.tail).zip (y.zip y.tail)).foldl
    (fun acc p => acc + ((p.1.2 - p.1.1 : ℝ) : ℂ) * (p.2.1 + p.2.2) / 2) 0

/-- integrate_2d of _radiation_vectors_for_surface (lines 464-466):
np.trapz over the u axis, then np.trapz over the v axis. -/
noncomputable def integrate2d (f : ℕ → ℕ → ℂ) (ptsU ptsV : List ℝ) : ℂ :=
  trapz
    ((List.range ptsV.length).map
      (fun v => trapz ((List.range ptsU.length).map (fun u => f u v)) ptsU))
    ptsV

/-- One Near2FarSurface together with its colocated current dataset: the
normal axis, the coordinate arrays of the dataset, and the tangential current
components J_c1, J_c2, M_c1, M_c2 selected at a frequency value. -/
structure N2FSurfaceData where
  axis : Fin 3
  coords : Fin 3 → List ℝ
  Jc1 : ℝ → ℕ → ℕ → ℂ
  Jc2 : ℝ → ℕ → ℕ → ℂ
  Mc1 : ℝ → ℕ → ℕ → ℂ
  Mc2 : ℝ → ℕ → ℕ → ℂ

/-- The Near2Far data used by radiation_vectors: the surfaces, the local
origin, the complex wavenumber of the background medium as a function of
frequency, and the monitor frequency list. -/
structure N2FModel where
  surfaces : List N2FSurfaceData
  origin : Fin 3 → ℝ
  kOf : ℝ → ℂ
  freqs : List ℝ

/-- The direction cosines (sin(theta)*cos(phi), sin(theta)*sin(phi),
cos(theta)) appearing in the per-axis phase factors (lines 476-478). -/
noncomputable def dirCosine (theta phi : ℝ) : Fin 3 → ℝ :=
  ![Real.sin theta * Real.cos phi, Real.sin theta * Real.sin phi, Real.cos theta]

/-- Lines 438-496 of _radiation_vectors_for_surface for one observation angle
pair: translate the coordinates by the origin, build the per-axis phase
arrays exp(-i*k*pt*direction_cosine), form the phase kernel as the outer
product of the tangential phase arrays times the normal-axis phase scalar,
and fill the tangential entries of J and M with the 2D trapezoidal integrals
of current times phase (all other entries stay at their zero
initialization). -/
noncomputable def surfaceJM (nf : N2FModel) (s : N2FSurfaceData)
    (frequency theta phi : ℝ) : (Fin 3 → ℂ) × (Fin 3 → ℂ) :=
  let pts : Fin 3 → List ℝ := fun a => (s.coords a).map (fun c => c - nf.origin a)
  let idxW := (popAxis s.axis ((0 : Fin 3), (1 : Fin 3), (2 : Fin 3))).1
  let idxU := (popAxis s.axis ((0 : Fin 3), (1 : Fin 3), (2 : Fin 3))).2.1
  let idxV := (popAxis s.axis ((0 : Fin 3), (1 : Fin 3), (2 : Fin 3))).2.2
  let pf : ℂ := -Complex.I * nf.kOf frequency
  let phase : Fin 3 → List ℂ :=
    fun a => (pts a).map (fun p => Complex.exp (pf * (p : ℂ) * ((dirCosine theta phi a : ℝ) : ℂ)))
  let phaseIJ : ℕ → ℕ → ℂ :=
    fun u v => (phase idxU).getD u 0 * (phase idxV).getD v 0 * (phase idxW).headI
  let J : Fin 3 → ℂ := fun d =>
    if d = idxU then
      integrate2d (fun u v => s.Jc1 frequency u v * phaseIJ u v) (pts idxU) (pts idxV)
    else if d = idxV then
      integrate2d (fun u v => s.Jc2 frequency u v * phaseIJ u v) (pts idxU) (pts idxV)
    else 0
  let M : Fin 3 → ℂ := fun d =>
    if d = idxU then
      integrate2d (fun u v => s.Mc1 frequency u v * phaseIJ u v) (pts idxU) (pts idxV)
    else if d = idxV then
      integrate2d (fun u v => s.Mc2 frequency u v * phaseIJ u v) (pts idxU) (pts idxV)
    else 0
  (J, M)

/-- Lines 507-522: the Balanis (8.33-8.34) radiation vectors
(N_theta, N_phi, L_theta, L_phi) of one surface at one angle pair. -/
noncomputable def surfaceRadVectors (nf : N2FModel) (s : N2FSurfaceData)
    (frequency theta phi : ℝ) : ℂ × ℂ × ℂ × ℂ :=
  let JM := surfaceJM nf s frequency theta phi
  let J := JM.1
  let M := JM.2
  (J 0 * ((Real.cos theta * Real.cos phi : ℝ) : ℂ) +
      J 1 * ((Real.cos theta * Real.sin phi : ℝ) : ℂ) -
      J 2 * ((Real.sin theta : ℝ) : ℂ),
   -J 0 * ((Real.sin phi : ℝ) : ℂ) + J 1 * ((Real.cos phi : ℝ) : ℂ),
   M 0 * ((Real.cos theta * Real.cos phi : ℝ) : ℂ) +
      M 1 * ((Real.cos theta * Real.sin phi : ℝ) : ℂ) -
      M 2 * ((Real.sin theta : ℝ) : ℂ),
   -M 0 * ((Real.sin phi : ℝ) : ℂ) + M 1 * ((Real.cos phi : ℝ) : ℂ))

/-- Near2Far.radiation_vectors (lines 540-563) at one angle pair and one
frequency index: the arrays start at zero and accumulate the per-surface
contributions at the frequency freqs[idx_f], so each entry is the sum over
surfaces; distinct frequency indices are computed independently. -/
noncomputable def radiationVectorsTotal (nf : N2FModel) (theta phi : ℝ)
    (idxF : ℕ) : ℂ × ℂ × ℂ × ℂ :=
  ((nf.surfaces.map
      (fun s => (surfaceRadVectors nf s (nf.freqs.getD idxF 0) theta phi).1)).sum,
   (nf.surfaces.map
      (fun s => (surfaceRadVectors nf s (nf.freqs.getD idxF 0) theta phi).2.1)).sum,
   (nf.surfaces.map
      (fun s => (surfaceRadVectors nf s (nf.freqs.getD idxF 0) theta phi).2.2.1)).sum,
   (nf.surfaces.map
      (fun s => (surfaceRadVectors nf s (nf.freqs.getD idxF 0) theta phi).2.2.2)).sum)

/-- Claim C1: per surface, frequency and angle pair, the radiation vectors
satisfy N_theta = J_x cos(theta)cos(phi) + J_y cos(theta)sin(phi)
- J_z sin(theta) and N_phi = -J_x sin(phi) + J_y cos(phi), with L given by
the same formulas with M in place of J, where J and M carry the
phase-weighted trapezoidal integrals of the surface currents on the
tangential entries and zero on the normal entry; the final arrays are the
sums of the per-surface contributions with an independent frequency axis. -/
theorem claim_C1_radiation_vectors (nf : N2FModel) (s : N2FSurfaceData)
    (frequency theta phi : ℝ) (idxF : ℕ) :
    ((surfaceRadVectors nf s frequency theta phi).1 =
      (surfaceJM nf s frequency theta phi).1 0 * ((Real.cos theta * Real.cos phi : ℝ) : ℂ) +
        (surfaceJM nf s frequency theta phi).1 1 * ((Real.cos theta * Real.sin phi : ℝ) : ℂ) -
        (surfaceJM nf s frequency theta phi).1 2 * ((Real.sin theta : ℝ) : ℂ)) ∧
    ((surfaceRadVectors nf s frequency theta phi).2.1 =
      -(surfaceJM nf s frequency theta phi).1 0 * ((Real.sin phi : ℝ) : ℂ) +
        (surfaceJM nf s frequency theta phi).1 1 * ((Real.cos phi : ℝ) : ℂ)) ∧
    ((surfaceRadVectors nf s frequency theta phi).2.2.1 =
      (surfaceJM nf s frequency theta phi).2 0 * ((Real.cos theta * Real.cos phi : ℝ) : ℂ) +
        (surfaceJM nf s frequency theta phi).2 1 * ((Real.cos theta * Real.sin phi : ℝ) : ℂ) -
        (surfaceJM nf s frequency theta phi).2 2 * ((Real.sin theta : ℝ) : ℂ)) ∧
    ((surfaceRadVectors nf s frequency theta phi).2.2.2 =
      -(surfaceJM nf s frequency theta phi).2 0 * ((Real.sin phi : ℝ) : ℂ) +
        (surfaceJM nf s frequency theta phi).2 1 * ((Real.cos phi : ℝ) : ℂ)) ∧
    ((radiationVectorsTotal nf theta phi idxF).1 =
      (nf.surfaces.map
        (fun t => (surfaceRadVectors nf t (nf.freqs.getD idxF 0) theta phi).1)).sum) ∧
    ((radiationVectorsTotal nf theta phi idxF).2.1 =
      (nf.surfaces.map
        (fun t => (surfaceRadVectors nf t (nf.freqs.getD idxF 0) theta phi).2.1)).sum) ∧
    ((radiationVectorsTotal nf theta phi idxF).2.2.1 =
      (nf.surfaces.map
        (fun t => (surfaceRadVectors nf t (nf.freqs.getD idxF 0) theta phi).2.2.1)).sum) ∧
    ((radiationVectorsTotal nf theta phi idxF).2.2.2 =
      (nf.surfaces.map
        (fun t => (surfaceRadVectors nf t (nf.freqs.getD idxF 0) theta phi).2.2.2)).sum) ∧
    ((surfaceJM nf s frequency theta phi).1
        (popAxis s.axis ((0 : Fin 3), (1 : Fin 3), (2 : Fin 3))).1 = 0) := by
  refine ⟨rfl, rfl, rfl, rfl, rfl, rfl, rfl, rfl, ?_⟩
  obtain ⟨ax, coords, jc1, jc2, mc1, mc2⟩ := s
  fin_cases ax <;> simp [surfaceJM, popAxis]

end Tidy3d
